import Mathlib

/-!
Shallow embedding of the Nova voice-assistant client
(`src/services/audioUtils.ts` and `src/hooks/useNova.ts`), together with
theorems settling the specification's claims about it.

JavaScript numbers are modelled as rationals (`ℚ`); byte values as `Nat`
(kept below 256 by hypothesis where it matters); strings as Lean `String`s
over their character lists.
-/

/- ------------------------------------------------------------------
   Browser builtins used by `audioUtils.ts`: `btoa` / `atob`.
   ------------------------------------------------------------------ -/

/-- The base64 alphabet used by the browser `btoa` builtin. -/
def base64Alphabet : List Char :=
  "ABCDEFGHIJKLMNOPQRSTUVWXYZabcdefghijklmnopqrstuvwxyz0123456789+/".data

/-- Sextet value to base64 character (the `btoa` lookup table). -/
def base64CharOf (n : Nat) : Char := base64Alphabet.getD n 'A'

/-- Base64 character back to its sextet value (the `atob` lookup),
written arithmetically over character codes. -/
def base64ValOf (c : Char) : Nat :=
  if 'A' ≤ c ∧ c ≤ 'Z' then c.toNat - 65
  else if 'a' ≤ c ∧ c ≤ 'z' then c.toNat - 71
  else if '0' ≤ c ∧ c ≤ '9' then c.toNat - 48 + 52
  else if c = '+' then 62
  else if c = '/' then 63
  else 0

/-- The browser `btoa` builtin on a latin1 byte sequence: groups of three
bytes become four base64 characters; a one- or two-byte tail is padded
with `=`. -/
def btoaModel : List Nat → List Char
  | [] => []
  | [b1] =>
    [base64CharOf (b1 / 4), base64CharOf (b1 % 4 * 16), '=', '=']
  | [b1, b2] =>
    [base64CharOf (b1 / 4), base64CharOf (b1 % 4 * 16 + b2 / 16),
     base64CharOf (b2 % 16 * 4), '=']
  | b1 :: b2 :: b3 :: rest =>
    base64CharOf (b1 / 4) :: base64CharOf (b1 % 4 * 16 + b2 / 16) ::
    base64CharOf (b2 % 16 * 4 + b3 / 64) :: base64CharOf (b3 % 64) ::
    btoaModel rest

/-- The browser `atob` builtin on well-formed base64 text (the outputs of
`btoa`): four characters yield three bytes, with `=` padding marking a
short final group. -/
def atobModel : List Char → List Nat
  | c1 :: c2 :: c3 :: c4 :: rest =>
    let s1 := base64ValOf c1
    let s2 := base64ValOf c2
    if c3 = '=' then [s1 * 4 + s2 / 16]
    else
      let s3 := base64ValOf c3
      if c4 = '=' then [s1 * 4 + s2 / 16, s2 % 16 * 16 + s3 / 4]
      else
        let s4 := base64ValOf c4
        (s1 * 4 + s2 / 16) :: (s2 % 16 * 16 + s3 / 4) ::
        (s3 % 4 * 64 + s4) :: atobModel rest
  | _ => []

/- ------------------------------------------------------------------
   `src/services/audioUtils.ts`
   ------------------------------------------------------------------ -/

/-- `decode` of `audioUtils.ts`: base64 string to raw bytes
(`atob` followed by per-character `charCodeAt`). -/
def decode (base64 : String) : List Nat := atobModel base64.data

/-- `encode` of `audioUtils.ts`: raw bytes to a base64 string
(`String.fromCharCode` over each byte, then `btoa`). -/
def encode (bytes : List Nat) : String := String.mk (btoaModel bytes)

/-- `downsampleTo16k` of `audioUtils.ts`: identity when the rate is
already 16000, otherwise nearest-neighbor decimation with output length
`Math.ceil(buffer.length / ratio)`; an out-of-range source offset leaves
the `Float32Array` slot at its zero initialisation. -/
def downsampleTo16k (buffer : List ℚ) (inputSampleRate : ℚ) : List ℚ :=
  if inputSampleRate = 16000 then buffer
  else
    let ratio := inputSampleRate / 16000
    let newLength := (⌈(buffer.length : ℚ) / ratio⌉).toNat
    (List.range newLength).map (fun (i : Nat) =>
      let offset := (⌊(i : ℚ) * ratio⌋).toNat
      if offset < buffer.length then buffer.getD offset 0 else 0)

/-- JavaScript `ToInt16` conversion applied when a number is stored into
an `Int16Array`: truncate toward zero, then wrap into the signed 16-bit
range. -/
def toInt16 (q : ℚ) : ℤ :=
  let n : ℤ := if q < 0 then ⌈q⌉ else ⌊q⌋
  (n + 32768) % 65536 - 32768

/-- The per-sample body of `createBlob` in `audioUtils.ts`: clamp to
`[-1, 1]`, scale negatives by `0x8000` and non-negatives by `0x7FFF`,
store into an `Int16Array` slot. -/
def floatToPCM16sample (sample : ℚ) : ℤ :=
  let s := max (-1) (min 1 sample)
  toInt16 (if s < 0 then s * 32768 else s * 32767)

/-- Little-endian bytes of one `Int16Array` element as exposed by viewing
its buffer as a `Uint8Array`. -/
def int16ToBytesLE (n : ℤ) : List Nat :=
  let u := (n % 65536).toNat
  [u % 256, u / 256]

/-- The byte payload produced by `createBlob` in `audioUtils.ts`
(before base64 transport encoding): each sample becomes two
little-endian PCM16 bytes. -/
def createBlobBytes (data : List ℚ) : List Nat :=
  (data.map floatToPCM16sample).flatMap int16ToBytesLE

/-- Reinterpret an unsigned 16-bit value as a signed `Int16Array`
element. -/
def toSigned16 (u : Nat) : ℤ :=
  if u < 32768 then (u : ℤ) else (u : ℤ) - 65536

/-- Viewing a byte buffer as an `Int16Array` (little-endian pairs), after
the odd-length padding step of `decodeAudioData` in `audioUtils.ts`. -/
def bytesToInt16 : List Nat → List ℤ
  | [] => []
  | [b0] => [toSigned16 (b0 + 256 * 0)]
  | b0 :: b1 :: rest => toSigned16 (b0 + 256 * b1) :: bytesToInt16 rest

/-- `decodeAudioData` of `audioUtils.ts`: bytes to per-channel float
samples; `frameCount = pcmData.length / numChannels` and
`channelData[i] = pcmData[i * numChannels + channel] / 32768`. -/
def decodeAudioDataSamples (data : List Nat) (numChannels : Nat) : List (List ℚ) :=
  let pcmData := bytesToInt16 data
  let frameCount := pcmData.length / numChannels
  (List.range numChannels).map (fun channel =>
    (List.range frameCount).map (fun i =>
      ((pcmData.getD (i * numChannels + channel) 0 : ℚ)) / 32768))

/- ------------------------------------------------------------------
   `src/hooks/useNova.ts`: status enum and capture pipeline.
   ------------------------------------------------------------------ -/

/-- `NovaStatus` from `src/types.ts`. -/
inductive NovaStatus
  | IDLE
  | CONNECTING
  | LISTENING
  | THINKING
  | SPEAKING
  | ERROR
deriving DecidableEq, Repr

/-- JavaScript `String.prototype.includes`: substring containment over
the character sequence. -/
def stringIncludes (s sub : String) : Bool := decide (sub.data <:+: s.data)

/-- `BUFFER_THRESHOLD` from `useNova.ts`. -/
def BUFFER_THRESHOLD : Nat := 4096

/-- Sum of squares of a chunk, the `sumSquares` accumulation loop of
`onaudioprocess` in `useNova.ts`. -/
def sumSquares (chunk : List ℚ) : ℚ := (chunk.map (fun s => s * s)).sum

/-- The silence gate of `onaudioprocess`:
`Math.sqrt(sumSquares / length) > 0.000001`.  Both sides of the source's
comparison are nonnegative, so it is stated equivalently on squares:
`sumSquares / length > 0.000001 ^ 2`. -/
def silenceGate (chunk : List ℚ) : Bool :=
  decide (sumSquares chunk / (chunk.length : ℚ) > (1 / 1000000) ^ 2)

/-- The `scriptBufferSize` selection in the `onopen` callback of
`useNova.ts`: 2048 by default, 4096 from 44100 Hz, 8192 from 96000 Hz. -/
def scriptBufferSize (sampleRate : ℚ) : Nat :=
  if 96000 ≤ sampleRate then 8192
  else if 44100 ≤ sampleRate then 4096
  else 2048

/-- One firing of `processor.onaudioprocess` in `useNova.ts`: bail out on
the stop flag, downsample the captured frame, append it to the
accumulator, and - in a single `if`, not a loop - slice off one
`BUFFER_THRESHOLD`-sized chunk when the accumulator has grown past the
threshold, sending it only when it passes the silence gate.  Returns the
new accumulator together with the chunk that was sent, if any. -/
def onaudioprocess (stopFlag : Bool) (acc : List ℚ) (inputData : List ℚ)
    (sampleRate : ℚ) : List ℚ × Option (List ℚ) :=
  if stopFlag then (acc, none)
  else
    let downsampledData := downsampleTo16k inputData sampleRate
    let newBuffer := acc ++ downsampledData
    if BUFFER_THRESHOLD ≤ newBuffer.length then
      let chunkToSend := newBuffer.take BUFFER_THRESHOLD
      let rest := newBuffer.drop BUFFER_THRESHOLD
      if silenceGate chunkToSend then (rest, some chunkToSend) else (rest, none)
    else (newBuffer, none)

/- ------------------------------------------------------------------
   `useNova.ts`: playback scheduling inside `onmessage`.
   ------------------------------------------------------------------ -/

/-- The playback-scheduling step of the `onmessage` callback in
`useNova.ts`: clamp `nextStartTime` up to `currentTime` when it has
fallen behind, start the source at the (possibly clamped)
`nextStartTime`, then advance it by the buffer's duration.  Returns the
start offset handed to `source.start` and the new `nextStartTime`. -/
def schedulePlayback (nextStartTime currentTime duration : ℚ) : ℚ × ℚ :=
  let t := if nextStartTime < currentTime then currentTime else nextStartTime
  (t, t + duration)

/-- Iterated scheduling of a queue of buffer durations at a fixed
output-timeline time: returns the list of start offsets and the final
`nextStartTime`. -/
def scheduleAll (nextStartTime currentTime : ℚ) :
    List ℚ → List ℚ × ℚ
  | [] => ([], nextStartTime)
  | d :: ds =>
    let step := schedulePlayback nextStartTime currentTime d
    let rest := scheduleAll step.2 currentTime ds
    (step.1 :: rest.1, rest.2)

/- ------------------------------------------------------------------
   `useNova.ts`: the `onerror` callback and its retry policy.
   ------------------------------------------------------------------ -/

/-- The session-level mutable state touched by the `onerror` callback of
`useNova.ts`. -/
structure SessionState where
  status : NovaStatus
  isConnecting : Bool
  retryCount : Nat
deriving DecidableEq, Repr

/-- The `onerror` callback of `useNova.ts`: always set `ERROR` and clear
the connecting flag; when the message carries the `'Network error'`
signature and the retry counter is zero, bump the counter and schedule
one reconnect via `setTimeout(() => connect(apiKey), 2000)`.  The second
component is the delay of the scheduled reconnect, `none` when no
reconnect is scheduled. -/
def onerror (msg : String) (s : SessionState) : SessionState × Option Nat :=
  let s1 : SessionState := { s with status := NovaStatus.ERROR, isConnecting := false }
  if stringIncludes msg "Network error" ∧ s1.retryCount = 0 then
    ({ s1 with retryCount := s1.retryCount + 1 }, some 2000)
  else (s1, none)

/-- Feeding a sequence of transport-error messages to `onerror`,
collecting every reconnect delay that gets scheduled along the way. -/
def onerrorSeq (s : SessionState) : List String → SessionState × List Nat
  | [] => (s, [])
  | msg :: msgs =>
    let step := onerror msg s
    let rest := onerrorSeq step.1 msgs
    (rest.1, (step.2.toList) ++ rest.2)

/- ------------------------------------------------------------------
   `useNova.ts`: the tool dispatcher inside `onmessage`.
   ------------------------------------------------------------------ -/

/-- JavaScript whitespace characters matched by the `\s` regex class
(the ASCII members; the inputs of interest contain only spaces). -/
def isJsWhitespace (c : Char) : Bool :=
  c = ' ' ∨ c = '\t' ∨ c = '\n' ∨ c = '\r' ∨ c = '\x0b' ∨ c = '\x0c'

/-- `url.toLowerCase()` on the ASCII strings of interest. -/
def toLowerString (s : String) : String := String.mk (s.data.map Char.toLower)

/-- `url.replace(/\s+/g, '')`: remove every whitespace character. -/
def stripWhitespace (s : String) : String :=
  String.mk (s.data.filter (fun c => ¬ isJsWhitespace c))

/-- JavaScript `String.prototype.startsWith`, written over the character
list. -/
def strStartsWith (s pre : String) : Bool := decide (pre.data <+: s.data)

/-- A parsed URL as seen through the browser `URL` builtin, restricted to
the shapes this code produces: a scheme, a hostname, and a path, with no
port, userinfo, query or fragment. -/
structure URLModel where
  scheme : String
  hostname : String
  path : String
deriving DecidableEq, Repr

/-- Model of the browser `new URL(url)` constructor on `http://` /
`https://` inputs without port, userinfo, query or fragment: the
hostname runs to the first `/`, the rest is the path; an empty hostname
makes the constructor throw (`none`). -/
def parseURL (url : String) : Option URLModel :=
  let scheme := if strStartsWith url "https://" then some "https"
                else if strStartsWith url "http://" then some "http" else none
  match scheme with
  | none => none
  | some sch =>
    let rest := String.mk (url.data.drop (sch.length + 3))
    let hostname := String.mk (rest.data.takeWhile (fun c => c ≠ '/'))
    let path := String.mk (rest.data.dropWhile (fun c => c ≠ '/'))
    if hostname = "" then none
    else some { scheme := sch, hostname := hostname, path := path }

/-- Model of `URL.prototype.toString` (the WHATWG serializer) for the
same restricted shapes: special schemes always serialize with a
nonempty path, so an absent path becomes `/`. -/
def urlToString (u : URLModel) : String :=
  u.scheme ++ "://" ++ u.hostname ++ (if u.path = "" then "/" else u.path)

/-- The URL normalization performed by the `openUrl` branch of the tool
dispatcher in `useNova.ts`: lowercase, strip whitespace, default the
scheme to `https://`, then - through the browser `URL` object when it
parses, by a plain substring check otherwise - append `.com` to a
hostname with no dot. -/
def normalizeUrl (url0 : String) : String :=
  let url1 := toLowerString url0
  let url2 := stripWhitespace url1
  let url3 :=
    if ¬ (strStartsWith url2 "http://" = true) ∧ ¬ (strStartsWith url2 "https://" = true) then
      "https://" ++ url2
    else url2
  match parseURL url3 with
  | some urlObj =>
    if ¬ (stringIncludes urlObj.hostname "." = true) then
      urlToString { urlObj with hostname := urlObj.hostname ++ ".com" }
    else url3
  | none =>
    if ¬ (stringIncludes url3 "." = true) then url3 ++ ".com" else url3

/-- The structured payloads the dispatcher stores into `result`, one
constructor per assignment in the source. -/
inductive ToolPayload
  | success
  | opened (url : String)
  | openBlocked
  | searched (query : String)
  | searchBlocked
  | themeChangedTo (mode : String)
  | systemStatus (time userAgent : String) (onLine : Bool)
  | error (message : String)
deriving DecidableEq, Repr, Inhabited

/-- The browser surface the tools touch.  `windowOpen` models
`window.open`: it may throw (`Except.error`), return a window handle
(`Except.ok true`) or return `null` when the popup is blocked
(`Except.ok false`). -/
structure BrowserEnv where
  windowOpen : String → Except String Bool
  encodeURIComponent : String → String
  nowISO : String
  userAgent : String
  onLine : Bool

/-- Arguments of a tool call, one field per property read by the
dispatcher. -/
structure ToolArgs where
  url : String := ""
  query : String := ""
  mode : String := ""
deriving DecidableEq, Repr, Inhabited

/-- A `ToolCall` as received in `message.toolCall.functionCalls`. -/
structure ToolCall where
  id : String
  name : String
  args : ToolArgs
deriving DecidableEq, Repr, Inhabited

/-- A `ToolResult` as pushed onto `functionResponses`. -/
structure ToolResult where
  id : String
  name : String
  response : ToolPayload
deriving DecidableEq, Repr, Inhabited

/-- The `try`-block body of the dispatcher loop in `onmessage`: the
`if`/`else if` chain over the tool name.  A throw inside the body
surfaces as `Except.error`; a name matching no branch leaves `result`
at its initialisation `{ success: true }`. -/
def runToolBody (env : BrowserEnv) (name : String) (args : ToolArgs) :
    Except String ToolPayload :=
  if name = "openUrl" then
    let url := normalizeUrl args.url
    match env.windowOpen url with
    | Except.error m => Except.error m
    | Except.ok true => Except.ok (ToolPayload.opened url)
    | Except.ok false => Except.ok ToolPayload.openBlocked
  else if name = "googleSearch" then
    let url := "https://www.google.com/search?q=" ++ env.encodeURIComponent args.query
    match env.windowOpen url with
    | Except.error m => Except.error m
    | Except.ok true => Except.ok (ToolPayload.searched args.query)
    | Except.ok false => Except.ok ToolPayload.searchBlocked
  else if name = "changeTheme" then Except.ok (ToolPayload.themeChangedTo args.mode)
  else if name = "getSystemStatus" then
    Except.ok (ToolPayload.systemStatus env.nowISO env.userAgent env.onLine)
  else Except.ok ToolPayload.success

/-- One iteration of the dispatcher loop: run the tool body under
`try`/`catch`, converting a throw into `{ error: toolErr.message }`, and
push `{ id, name, response: { result } }`. -/
def dispatchToolCall (env : BrowserEnv) (fc : ToolCall) : ToolResult :=
  let result :=
    match runToolBody env fc.name fc.args with
    | Except.ok r => r
    | Except.error m => ToolPayload.error m
  { id := fc.id, name := fc.name, response := result }

/-- The whole `message.toolCall` handler: one result per received call,
collected into the single `functionResponses` batch. -/
def dispatchToolCalls (env : BrowserEnv) (calls : List ToolCall) : List ToolResult :=
  calls.map (dispatchToolCall env)

/- ------------------------------------------------------------------
   Shared helper lemmas.
   ------------------------------------------------------------------ -/

/-- After `onerror` has bumped the retry counter, further transport
errors leave the state fixed and schedule nothing. -/
theorem onerrorSeq_fixed (k : Nat) (msgs : List String) :
    onerrorSeq ⟨NovaStatus.ERROR, false, k + 1⟩ msgs
      = (⟨NovaStatus.ERROR, false, k + 1⟩, []) := by
  induction msgs with
  | nil => rfl
  | cons m ms ih =>
    have hstep : onerror m ⟨NovaStatus.ERROR, false, k + 1⟩
        = (⟨NovaStatus.ERROR, false, k + 1⟩, none) := by
      simp [onerror]
    simp [onerrorSeq, hstep, ih]

/-- An all-zero chunk never passes the silence gate. -/
theorem silenceGate_of_zero (chunk : List ℚ) (h : ∀ s ∈ chunk, s = 0) :
    silenceGate chunk = false := by
  have hz : sumSquares chunk = 0 := by
    apply List.sum_eq_zero
    intro x hx
    rcases List.mem_map.mp hx with ⟨s, hs, rfl⟩
    rw [h s hs]
    ring
  simp only [silenceGate, hz, zero_div, decide_eq_false_iff_not, not_lt]
  norm_num

/- ------------------------------------------------------------------
   C1: one automatic reconnect on a network-signature error, then
   terminal ERROR.
   ------------------------------------------------------------------ -/

/-- C1: when a transport error message carries the `'Network error'`
signature and the retry counter is zero, exactly one reconnect is
scheduled (with the fixed 2000 ms backoff); however many further
transport errors follow in the same cycle, nothing else is ever
scheduled, the machine stays in `ERROR`, and the retry counter stays at
one. -/
theorem C1_reconnect_once (s : SessionState) (msg : String) (msgs : List String)
    (hnet : stringIncludes msg "Network error" = true)
    (h0 : s.retryCount = 0) :
    (onerrorSeq s (msg :: msgs)).2 = [2000] ∧
    (onerrorSeq s (msg :: msgs)).1.status = NovaStatus.ERROR ∧
    (onerrorSeq s (msg :: msgs)).1.retryCount = 1 := by
  have hstep : onerror msg s = (⟨NovaStatus.ERROR, false, 1⟩, some 2000) := by
    simp [onerror, hnet, h0]
  simp [onerrorSeq, hstep, onerrorSeq_fixed 0]

/-- Witness for C1 at a concrete error sequence: a first network error
from the idle retry state, followed by a second one. -/
theorem C1_reconnect_once_witness :
    stringIncludes "Connection Error: Network error (fetch failed)" "Network error" = true ∧
    (onerrorSeq ⟨NovaStatus.LISTENING, true, 0⟩
        ["Connection Error: Network error (fetch failed)",
         "Connection Error: Network error (fetch failed)"]).2 = [2000] := by
  refine ⟨by decide, ?_⟩
  exact (C1_reconnect_once ⟨NovaStatus.LISTENING, true, 0⟩ _ _ (by decide) rfl).1

/- ------------------------------------------------------------------
   C5: playback scheduling.
   ------------------------------------------------------------------ -/

/-- C5: the scheduler clamps a lagging `nextStartTime` up to the current
output-timeline time, starts the unit at the (clamped) `nextStartTime`,
advances `nextStartTime` by the buffer's duration - so it never
decreases for nonnegative durations - and scheduling durations
`[1.0, 0.5, 2.0]` with the timeline at 0 yields start offsets
`[0.0, 1.0, 1.5]`. -/
theorem C5_playback_scheduling (next now d : ℚ) (hd : 0 ≤ d) :
    (schedulePlayback next now d).1 = (if next < now then now else next) ∧
    (schedulePlayback next now d).2 = (schedulePlayback next now d).1 + d ∧
    next ≤ (schedulePlayback next now d).2 ∧
    (scheduleAll 0 0 [1, 1/2, 2]).1 = [0, 1, 3/2] := by
  refine ⟨rfl, rfl, ?_, by norm_num [scheduleAll, schedulePlayback]⟩
  simp only [schedulePlayback]
  split <;> linarith

/-- Witness for C5: a concrete lagging cursor (1 second behind a
timeline at 2 seconds) scheduling a half-second buffer. -/
theorem C5_playback_scheduling_witness :
    (0 : ℚ) ≤ 1/2 ∧
    (schedulePlayback 1 2 (1/2)).1 = (if (1 : ℚ) < 2 then (2 : ℚ) else 1) ∧
    (1 : ℚ) ≤ (schedulePlayback 1 2 (1/2)).2 := by
  have h := C5_playback_scheduling 1 2 (1/2) (by norm_num)
  exact ⟨by norm_num, h.1, h.2.2.1⟩

/- ------------------------------------------------------------------
   C10: unknown tool names fall through to the default result.
   ------------------------------------------------------------------ -/

/-- C10: a `ToolCall` whose name matches no branch of the dispatcher
still yields exactly one result in the batch, at its own position, with
its own id and name, and its payload is the initialisation
`{ success: true }` - indistinguishable from a successful tool. -/
theorem C10_unknown_tool_success (env : BrowserEnv) (calls : List ToolCall)
    (i : Nat) (hi : i < calls.length)
    (hname : ∀ knownName ∈ ["openUrl", "googleSearch", "changeTheme", "getSystemStatus"],
      (calls.getD i default).name ≠ knownName) :
    (dispatchToolCalls env calls).length = calls.length ∧
    (dispatchToolCalls env calls).getD i default =
      { id := (calls.getD i default).id, name := (calls.getD i default).name,
        response := ToolPayload.success } := by
  constructor
  · simp [dispatchToolCalls]
  · have hi' : i < (dispatchToolCalls env calls).length := by
      simpa [dispatchToolCalls] using hi
    rw [List.getD_eq_getElem _ _ hi', List.getD_eq_getElem _ _ hi]
    simp only [dispatchToolCalls, List.getElem_map]
    have h1 := hname "openUrl" (by simp)
    have h2 := hname "googleSearch" (by simp)
    have h3 := hname "changeTheme" (by simp)
    have h4 := hname "getSystemStatus" (by simp)
    rw [List.getD_eq_getElem _ _ hi] at h1 h2 h3 h4
    simp [dispatchToolCall, runToolBody, h1, h2, h3, h4]

/-- A concrete browser environment for witnesses: `window.open` throws
on one particular URL and returns a window handle otherwise. -/
def sampleEnv : BrowserEnv where
  windowOpen := fun url =>
    if url = "https://boom.com/" then Except.error "window.open failed"
    else Except.ok true
  encodeURIComponent := fun q => q
  nowISO := "2026-01-01T00:00:00.000Z"
  userAgent := "TestAgent"
  onLine := true

/-- Witness for C10: a batch holding one known and one unknown tool
name, checked at the unknown one's index. -/
theorem C10_unknown_tool_success_witness :
    (1 : Nat) < ([⟨"a", "changeTheme", ⟨"", "", "dark"⟩⟩,
        ⟨"b", "frobnicate", ⟨"", "", ""⟩⟩] : List ToolCall).length ∧
    (dispatchToolCalls sampleEnv
        [⟨"a", "changeTheme", ⟨"", "", "dark"⟩⟩,
         ⟨"b", "frobnicate", ⟨"", "", ""⟩⟩]).getD 1 default =
      { id := "b", name := "frobnicate", response := ToolPayload.success } := by
  refine ⟨by decide, ?_⟩
  exact (C10_unknown_tool_success sampleEnv
    [⟨"a", "changeTheme", ⟨"", "", "dark"⟩⟩, ⟨"b", "frobnicate", ⟨"", "", ""⟩⟩]
    1 (by decide) (by decide)).2

/- ------------------------------------------------------------------
   C8: the downsampler.
   ------------------------------------------------------------------ -/

/-- C8: `downsampleTo16k` is the identity at a 16000 source rate;
otherwise the output length is `⌈inputLength / (sourceRate / 16000)⌉`,
every output index `i` holds the input sample at offset
`⌊i * sourceRate / 16000⌋` when that offset is inside the buffer, and an
offset at or beyond the input length yields `0.0` - no out-of-bounds
index is read. -/
theorem C8_downsample_shape (buffer : List ℚ) (sourceRate : ℚ)
    (hpos : 0 < sourceRate) (hne : sourceRate ≠ 16000) :
    downsampleTo16k buffer 16000 = buffer ∧
    ((downsampleTo16k buffer sourceRate).length : ℤ)
      = ⌈(buffer.length : ℚ) / (sourceRate / 16000)⌉ ∧
    ∀ i, i < (downsampleTo16k buffer sourceRate).length →
      (downsampleTo16k buffer sourceRate).getD i 0 =
        (if (⌊(i : ℚ) * (sourceRate / 16000)⌋).toNat < buffer.length
         then buffer.getD (⌊(i : ℚ) * (sourceRate / 16000)⌋).toNat 0
         else 0) := by
  have hceil : (0 : ℤ) ≤ ⌈(buffer.length : ℚ) / (sourceRate / 16000)⌉ := by
    apply Int.ceil_nonneg
    apply div_nonneg (Nat.cast_nonneg _)
    positivity
  have hunfold : downsampleTo16k buffer sourceRate =
      (List.range ((⌈(buffer.length : ℚ) / (sourceRate / 16000)⌉).toNat)).map
        (fun (i : Nat) => if (⌊(i : ℚ) * (sourceRate / 16000)⌋).toNat < buffer.length
          then buffer.getD (⌊(i : ℚ) * (sourceRate / 16000)⌋).toNat 0 else 0) := by
    rw [downsampleTo16k, if_neg hne]
  refine ⟨by simp [downsampleTo16k], ?_, ?_⟩
  · rw [hunfold, List.length_map, List.length_range]
    exact Int.toNat_of_nonneg hceil
  · intro i hi
    rw [hunfold] at hi ⊢
    rw [List.length_map, List.length_range] at hi
    rw [List.getD_eq_getElem _ _ (by simpa using hi)]
    rw [List.getElem_map, List.getElem_range]

/-- Witness for C8: a three-sample buffer downsampled from 48000 Hz. -/
theorem C8_downsample_shape_witness :
    (0 : ℚ) < 48000 ∧ (48000 : ℚ) ≠ 16000 ∧
    ((downsampleTo16k [4, 5, 6] 48000).length : ℤ)
      = ⌈((3 : ℚ)) / ((48000 : ℚ) / 16000)⌉ := by
  refine ⟨by norm_num, by norm_num, ?_⟩
  have h := (C8_downsample_shape [4, 5, 6] 48000 (by norm_num) (by norm_num)).2.1
  simpa using h

/- ------------------------------------------------------------------
   C4: the silence gate on sliced chunks.
   ------------------------------------------------------------------ -/

/-- C4: a sliced 4096-sample chunk of all-zero samples never passes the
silence gate, while a sliced chunk holding at least one sample of
magnitude `≥ 0.01` always does (its RMS exceeds the `1e-6` epsilon). -/
theorem C4_silence_gating (chunk : List ℚ) (hlen : chunk.length = BUFFER_THRESHOLD) :
    ((∀ s ∈ chunk, s = 0) → silenceGate chunk = false) ∧
    ((∃ s ∈ chunk, 1/100 ≤ |s|) → silenceGate chunk = true) := by
  constructor
  · exact silenceGate_of_zero chunk
  · rintro ⟨s, hs, habs⟩
    have hsq : (1 : ℚ) / 10000 ≤ s * s := by
      have h1 : (1 : ℚ) / 100 * (1 / 100) ≤ |s| * |s| :=
        mul_le_mul habs habs (by norm_num) (abs_nonneg s)
      rw [abs_mul_abs_self] at h1
      linarith
    have hmem : s * s ∈ chunk.map (fun t => t * t) :=
      List.mem_map_of_mem (fun t => t * t) hs
    have hub : s * s ≤ sumSquares chunk := by
      apply List.single_le_sum _ _ hmem
      intro x hx
      rcases List.mem_map.mp hx with ⟨t, _, rfl⟩
      exact mul_self_nonneg t
    have hlb : (1 : ℚ) / 10000 ≤ sumSquares chunk := le_trans hsq hub
    simp only [silenceGate, decide_eq_true_eq, hlen, BUFFER_THRESHOLD]
    rw [gt_iff_lt]
    push_cast
    rw [lt_div_iff₀ (by norm_num : (0:ℚ) < 4096)]
    nlinarith [hlb]

/- ------------------------------------------------------------------
   C3: accumulator slicing discipline.
   ------------------------------------------------------------------ -/

/-- `getD` on an all-zero buffer is zero whatever the index. -/
theorem getD_replicate_zero (n k : ℕ) : (List.replicate n (0:ℚ)).getD k 0 = 0 := by
  rw [List.getD_eq_getElem?_getD, List.getElem?_replicate]
  split <;> rfl

/-- `onaudioprocess` with the stop flag clear, unfolded to source shape. -/
theorem onaudioprocess_false (acc inputData : List ℚ) (rate : ℚ) :
    onaudioprocess false acc inputData rate =
      (if BUFFER_THRESHOLD ≤ (acc ++ downsampleTo16k inputData rate).length then
         (if silenceGate ((acc ++ downsampleTo16k inputData rate).take BUFFER_THRESHOLD)
          then ((acc ++ downsampleTo16k inputData rate).drop BUFFER_THRESHOLD,
                some ((acc ++ downsampleTo16k inputData rate).take BUFFER_THRESHOLD))
          else ((acc ++ downsampleTo16k inputData rate).drop BUFFER_THRESHOLD, none))
       else (acc ++ downsampleTo16k inputData rate, none)) := rfl

/-- The specification's slicing discipline: slice chunks off the front
*while* the accumulator length is at least the threshold, keeping the
remainder. -/
def specSliceWhile (buf : List ℚ) : List ℚ :=
  buf.drop (buf.length / BUFFER_THRESHOLD * BUFFER_THRESHOLD)

/-- A captured frame of the size the code itself configures
(`scriptBufferSize`) downsamples to at most 4096 samples whenever the
capture rate is at least 8000 Hz. -/
theorem downsample_frame_le (frame : List ℚ) (rate : ℚ)
    (hf : frame.length = scriptBufferSize rate) (hr : 8000 ≤ rate) :
    (downsampleTo16k frame rate).length ≤ 4096 := by
  by_cases h16 : rate = 16000
  · subst h16
    have hid : downsampleTo16k frame 16000 = frame := by simp [downsampleTo16k]
    rw [hid, hf]
    unfold scriptBufferSize
    split_ifs with h1 h2
    · exact absurd h1 (by norm_num)
    · exact absurd h2 (by norm_num)
    · norm_num
  · have hup : downsampleTo16k frame rate =
        (List.range ((⌈(frame.length : ℚ) / (rate / 16000)⌉).toNat)).map
          (fun (i : Nat) => if (⌊(i : ℚ) * (rate / 16000)⌋).toNat < frame.length
            then frame.getD (⌊(i : ℚ) * (rate / 16000)⌋).toNat 0 else 0) := by
      rw [downsampleTo16k, if_neg h16]
    rw [hup, List.length_map, List.length_range, Int.toNat_le, Int.ceil_le]
    push_cast
    rw [div_div_eq_mul_div, div_le_iff₀ (by linarith : (0:ℚ) < rate), hf]
    unfold scriptBufferSize
    split_ifs with h1 h2 <;> push_cast <;> linarith

/-- C3 counterexample: the slicing is a single `if`, not a `while`.  At a
4000 Hz capture rate the code's own 2048-sample frame upsamples to 8192
samples, and after the frame is processed the accumulator holds exactly
4096 samples - not fewer than 4096 as the claim states. -/
theorem C3_counterexample :
    ¬ ((onaudioprocess false [] (List.replicate 2048 (0:ℚ)) 4000).1.length
        < BUFFER_THRESHOLD) := by
  have hds : downsampleTo16k (List.replicate 2048 (0:ℚ)) 4000
      = List.replicate 8192 0 := by
    rw [downsampleTo16k, if_neg (by norm_num)]
    have hlen : ((⌈((List.replicate 2048 (0:ℚ)).length : ℚ) / ((4000:ℚ) / 16000)⌉).toNat) = 8192 := by
      rw [List.length_replicate]
      norm_num
      rfl
    rw [List.eq_replicate_iff]
    refine ⟨by rw [List.length_map, List.length_range, hlen], ?_⟩
    intro b hb
    rcases List.mem_map.mp hb with ⟨i, _, rfl⟩
    simp only [getD_replicate_zero, ite_self]
  have hgate : silenceGate ((List.replicate 8192 (0:ℚ)).take BUFFER_THRESHOLD) = false := by
    apply silenceGate_of_zero
    intro s hs
    exact List.eq_of_mem_replicate (List.mem_of_mem_take hs)
  rw [onaudioprocess_false, hds, List.nil_append]
  rw [if_pos (by rw [List.length_replicate]; norm_num [BUFFER_THRESHOLD])]
  rw [if_neg (by rw [hgate]; simp)]
  rw [List.drop_replicate]
  simp only [List.length_replicate, BUFFER_THRESHOLD]
  omega

/-- C3 amended: the code slices at most one chunk per frame (an `if`,
not a `while`).  Provided each frame appends at most 4096 resampled
samples - which the code's own `scriptBufferSize` selection guarantees
for capture rates of at least 8000 Hz - the single conditional slice
coincides with the specification's slice-while-over-threshold
discipline, and the accumulator holds fewer than 4096 samples after the
frame is processed. -/
theorem C3_accumulator_invariant (acc frame : List ℚ) (rate : ℚ)
    (hacc : acc.length < BUFFER_THRESHOLD)
    (hframe : frame.length = scriptBufferSize rate)
    (hrate : 8000 ≤ rate) :
    (onaudioprocess false acc frame rate).1
      = specSliceWhile (acc ++ downsampleTo16k frame rate) ∧
    (onaudioprocess false acc frame rate).1.length < BUFFER_THRESHOLD := by
  have hds := downsample_frame_le frame rate hframe hrate
  have hlen : (acc ++ downsampleTo16k frame rate).length
      = acc.length + (downsampleTo16k frame rate).length := List.length_append _ _
  by_cases hth : BUFFER_THRESHOLD ≤ (acc ++ downsampleTo16k frame rate).length
  · have h1 : (onaudioprocess false acc frame rate).1
        = (acc ++ downsampleTo16k frame rate).drop BUFFER_THRESHOLD := by
      rw [onaudioprocess_false, if_pos hth]
      split <;> rfl
    have hdiv : (acc ++ downsampleTo16k frame rate).length / BUFFER_THRESHOLD = 1 := by
      simp only [BUFFER_THRESHOLD] at hth hacc ⊢
      omega
    constructor
    · rw [h1, specSliceWhile, hdiv, one_mul]
    · rw [h1, List.length_drop]
      simp only [BUFFER_THRESHOLD] at hth hacc ⊢
      omega
  · have h1 : (onaudioprocess false acc frame rate).1
        = acc ++ downsampleTo16k frame rate := by
      rw [onaudioprocess_false, if_neg hth]
    have hdiv : (acc ++ downsampleTo16k frame rate).length / BUFFER_THRESHOLD = 0 := by
      simp only [BUFFER_THRESHOLD] at hth ⊢
      omega
    constructor
    · rw [h1, specSliceWhile, hdiv, zero_mul, List.drop_zero]
    · rw [h1]
      omega

/-- Witness for C3 (amended) at a concrete frame: an empty accumulator
receiving one 2048-sample frame at 16000 Hz. -/
theorem C3_accumulator_invariant_witness :
    (List.replicate 2048 (0:ℚ)).length = scriptBufferSize 16000 ∧
    (8000 : ℚ) ≤ 16000 ∧
    (onaudioprocess false [] (List.replicate 2048 (0:ℚ)) 16000).1.length
      < BUFFER_THRESHOLD := by
  have h := C3_accumulator_invariant [] (List.replicate 2048 (0:ℚ)) 16000
    (by norm_num [BUFFER_THRESHOLD])
    (by rw [List.length_replicate]; norm_num [scriptBufferSize])
    (by norm_num)
  exact ⟨by rw [List.length_replicate]; norm_num [scriptBufferSize], by norm_num, h.2⟩

/- ------------------------------------------------------------------
   C6: `openUrl` URL normalization.
   ------------------------------------------------------------------ -/

/-- C6 counterexample: `openUrl("REDDIT")` does not open exactly
`https://reddit.com` - the hostname edit goes through the browser `URL`
object, whose serializer appends the root path, so the string handed to
`window.open` is `https://reddit.com/`. -/
theorem C6_counterexample : normalizeUrl "REDDIT" ≠ "https://reddit.com" := by
  decide

/-- C6 amended: `openUrl` normalizes by lowercasing, stripping
whitespace, prefixing `https://` when no scheme is present, and
appending `.com` when the hostname has no dot; `openUrl("REDDIT")`
attempts to open exactly `https://reddit.com/` (the `URL` serializer
adds the root-path slash when the hostname was edited), and
`openUrl("face book . com")` attempts to open exactly
`https://facebook.com` (left untouched beyond scheme prefixing, so no
slash is added). -/
theorem C6_url_normalization :
    normalizeUrl "REDDIT" = "https://reddit.com/" ∧
    normalizeUrl "face book . com" = "https://facebook.com" ∧
    runToolBody sampleEnv "openUrl" ⟨"REDDIT", "", ""⟩
      = Except.ok (ToolPayload.opened "https://reddit.com/") ∧
    runToolBody sampleEnv "openUrl" ⟨"face book . com", "", ""⟩
      = Except.ok (ToolPayload.opened "https://facebook.com") := by
  exact ⟨by decide, by decide, by rfl, by rfl⟩

/- ------------------------------------------------------------------
   C2: tool dispatch completeness.
   ------------------------------------------------------------------ -/

/-- C2: for every received batch of tool calls the dispatcher returns
exactly one batched response with exactly one result per call, each
result carrying its call's id and name; a call whose body throws gets a
result carrying the error payload, while every call whose body runs
normally gets its normal payload - the `try`/`catch` conversion is
total, so no tool exception ever escapes to the transport layer. -/
theorem C2_dispatch_completeness (env : BrowserEnv) (calls : List ToolCall) :
    (dispatchToolCalls env calls).length = calls.length ∧
    ∀ i, i < calls.length →
      ((dispatchToolCalls env calls).getD i default).id = (calls.getD i default).id ∧
      ((dispatchToolCalls env calls).getD i default).name = (calls.getD i default).name ∧
      (∀ m, runToolBody env (calls.getD i default).name (calls.getD i default).args
          = Except.error m →
        ((dispatchToolCalls env calls).getD i default).response = ToolPayload.error m) ∧
      (∀ p, runToolBody env (calls.getD i default).name (calls.getD i default).args
          = Except.ok p →
        ((dispatchToolCalls env calls).getD i default).response = p) := by
  constructor
  · simp [dispatchToolCalls]
  · intro i hi
    have hi' : i < (dispatchToolCalls env calls).length := by
      simpa [dispatchToolCalls] using hi
    rw [List.getD_eq_getElem _ _ hi', List.getD_eq_getElem _ _ hi]
    simp only [dispatchToolCalls, List.getElem_map]
    refine ⟨rfl, rfl, ?_, ?_⟩
    · intro m hm
      simp [dispatchToolCall, hm]
    · intro p hp
      simp [dispatchToolCall, hp]

/-- Witness for C2 at a concrete two-call batch whose first tool throws
(`window.open` fails on the normalized URL) and whose second runs
normally. -/
theorem C2_dispatch_completeness_witness :
    (0 : Nat) < ([⟨"1", "openUrl", ⟨"boom", "", ""⟩⟩,
        ⟨"2", "changeTheme", ⟨"", "", "dark"⟩⟩] : List ToolCall).length ∧
    runToolBody sampleEnv "openUrl" ⟨"boom", "", ""⟩
      = Except.error "window.open failed" ∧
    ((dispatchToolCalls sampleEnv
        [⟨"1", "openUrl", ⟨"boom", "", ""⟩⟩,
         ⟨"2", "changeTheme", ⟨"", "", "dark"⟩⟩]).getD 0 default).response
      = ToolPayload.error "window.open failed" ∧
    ((dispatchToolCalls sampleEnv
        [⟨"1", "openUrl", ⟨"boom", "", ""⟩⟩,
         ⟨"2", "changeTheme", ⟨"", "", "dark"⟩⟩]).getD 1 default).response
      = ToolPayload.themeChangedTo "dark" := by
  have h := C2_dispatch_completeness sampleEnv
    [⟨"1", "openUrl", ⟨"boom", "", ""⟩⟩, ⟨"2", "changeTheme", ⟨"", "", "dark"⟩⟩]
  refine ⟨by decide, by rfl, ?_, ?_⟩
  · exact (h.2 0 (by decide)).2.2.1 "window.open failed" (by rfl)
  · exact (h.2 1 (by decide)).2.2.2 (ToolPayload.themeChangedTo "dark") (by rfl)

/- ------------------------------------------------------------------
   C9: base64 round trip.
   ------------------------------------------------------------------ -/

/-- The `atob` lookup inverts the `btoa` lookup on every sextet. -/
theorem base64ValOf_charOf : ∀ n : Fin 64, base64ValOf (base64CharOf n.val) = n.val := by
  decide

/-- No sextet encodes to the padding character. -/
theorem base64CharOf_ne_pad : ∀ n : Fin 64, base64CharOf n.val ≠ '=' := by
  decide

/-- `atob` inverts `btoa` on every byte sequence. -/
theorem atob_btoa : ∀ l : List Nat, (∀ b ∈ l, b < 256) → atobModel (btoaModel l) = l
  | [], _ => rfl
  | [b1], h => by
    have hb1 : b1 < 256 := h b1 (by simp)
    have e1 := base64ValOf_charOf ⟨b1 / 4, by omega⟩
    have e2 := base64ValOf_charOf ⟨b1 % 4 * 16, by omega⟩
    simp only [btoaModel, atobModel, e1, e2, if_pos]
    simp only [List.cons.injEq, and_true]
    omega
  | [b1, b2], h => by
    have hb1 : b1 < 256 := h b1 (by simp)
    have hb2 : b2 < 256 := h b2 (by simp)
    have e1 := base64ValOf_charOf ⟨b1 / 4, by omega⟩
    have e2 := base64ValOf_charOf ⟨b1 % 4 * 16 + b2 / 16, by omega⟩
    have e3 := base64ValOf_charOf ⟨b2 % 16 * 4, by omega⟩
    have n3 := base64CharOf_ne_pad ⟨b2 % 16 * 4, by omega⟩
    simp only [btoaModel, atobModel, e1, e2, e3, if_neg n3, if_pos]
    simp only [List.cons.injEq, and_true]
    omega
  | b1 :: b2 :: b3 :: rest, h => by
    have hb1 : b1 < 256 := h b1 (by simp)
    have hb2 : b2 < 256 := h b2 (by simp)
    have hb3 : b3 < 256 := h b3 (by simp)
    have hrest : ∀ b ∈ rest, b < 256 := fun b hb => h b (by simp [hb])
    have ih := atob_btoa rest hrest
    have e1 := base64ValOf_charOf ⟨b1 / 4, by omega⟩
    have e2 := base64ValOf_charOf ⟨b1 % 4 * 16 + b2 / 16, by omega⟩
    have e3 := base64ValOf_charOf ⟨b2 % 16 * 4 + b3 / 64, by omega⟩
    have e4 := base64ValOf_charOf ⟨b3 % 64, by omega⟩
    have n3 := base64CharOf_ne_pad ⟨b2 % 16 * 4 + b3 / 64, by omega⟩
    have n4 := base64CharOf_ne_pad ⟨b3 % 64, by omega⟩
    show atobModel (_ :: _ :: _ :: _ :: btoaModel rest) = _
    simp only [atobModel, e1, e2, e3, e4, if_neg n3, if_neg n4, ih]
    simp only [List.cons.injEq, and_true]
    omega

/-- C9: decoding the base64 encoding of any byte sequence returns the
sequence exactly: `decode (encode b) = b`. -/
theorem C9_base64_roundtrip (bytes : List Nat) (h : ∀ b ∈ bytes, b < 256) :
    decode (encode bytes) = bytes :=
  atob_btoa bytes h

/-- Witness for C9 at a concrete byte sequence exercising a padded tail
group. -/
theorem C9_base64_roundtrip_witness :
    (∀ b ∈ ([0, 127, 255, 77] : List Nat), b < 256) ∧
    decode (encode [0, 127, 255, 77]) = [0, 127, 255, 77] :=
  ⟨by decide, C9_base64_roundtrip [0, 127, 255, 77] (by decide)⟩

/- ------------------------------------------------------------------
   C7: PCM16 codec round trip.
   ------------------------------------------------------------------ -/

/-- On a negative in-range sample the encoder is the ceiling of
`s * 32768` (truncation toward zero; no 16-bit wrap occurs). -/
theorem floatToPCM16_neg (s : ℚ) (h1 : -1 ≤ s) (hneg : s < 0) :
    floatToPCM16sample s = ⌈s * 32768⌉ := by
  simp only [floatToPCM16sample, toInt16]
  have hc : max (-1) (min 1 s) = s := by
    rw [min_eq_right (by linarith), max_eq_right h1]
  rw [hc, if_pos hneg, if_pos (by linarith : s * 32768 < 0)]
  have hq : (-32768 : ℚ) ≤ s * 32768 := by linarith
  have hlb : (-32768 : ℤ) ≤ ⌈s * 32768⌉ := by
    exact_mod_cast hq.trans (Int.le_ceil _)
  have hub : ⌈s * 32768⌉ ≤ 0 := Int.ceil_le.mpr (by push_cast; nlinarith)
  omega

/-- On a non-negative in-range sample the encoder is the floor of
`s * 32767` (truncation toward zero; no 16-bit wrap occurs). -/
theorem floatToPCM16_nonneg (s : ℚ) (h2 : s ≤ 1) (hpos : 0 ≤ s) :
    floatToPCM16sample s = ⌊s * 32767⌋ := by
  simp only [floatToPCM16sample, toInt16]
  have hc : max (-1) (min 1 s) = s := by
    rw [min_eq_right h2, max_eq_right (by linarith)]
  rw [hc, if_neg (not_lt.mpr hpos),
    if_neg (not_lt.mpr (by nlinarith : (0 : ℚ) ≤ s * 32767))]
  have hlb : (0 : ℤ) ≤ ⌊s * 32767⌋ := Int.floor_nonneg.mpr (by nlinarith)
  have hub : ⌊s * 32767⌋ ≤ 32767 := by
    calc ⌊s * 32767⌋ ≤ ⌊(32767 : ℚ)⌋ := Int.floor_mono (by nlinarith)
      _ = 32767 := by norm_num
  omega

/-- The encoded value of an in-range sample fits the signed 16-bit
range. -/
theorem floatToPCM16_mem_range (s : ℚ) (h1 : -1 ≤ s) (h2 : s ≤ 1) :
    -32768 ≤ floatToPCM16sample s ∧ floatToPCM16sample s < 32768 := by
  rcases lt_or_le s 0 with hneg | hpos
  · rw [floatToPCM16_neg s h1 hneg]
    have hq : (-32768 : ℚ) ≤ s * 32768 := by linarith
    have hlb : (-32768 : ℤ) ≤ ⌈s * 32768⌉ := by
      exact_mod_cast hq.trans (Int.le_ceil _)
    have hub : ⌈s * 32768⌉ ≤ 0 := Int.ceil_le.mpr (by push_cast; nlinarith)
    omega
  · rw [floatToPCM16_nonneg s h2 hpos]
    have hlb : (0 : ℤ) ≤ ⌊s * 32767⌋ := Int.floor_nonneg.mpr (by nlinarith)
    have hub : ⌊s * 32767⌋ ≤ 32767 := by
      calc ⌊s * 32767⌋ ≤ ⌊(32767 : ℚ)⌋ := Int.floor_mono (by nlinarith)
        _ = 32767 := by norm_num
    omega

/-- Little-endian byte splitting and `Int16Array` reinterpretation
cancel on every signed 16-bit value. -/
theorem toSigned16_bytes (n : ℤ) (hl : -32768 ≤ n) (hu : n < 32768) :
    toSigned16 ((n % 65536).toNat % 256 + 256 * ((n % 65536).toNat / 256)) = n := by
  unfold toSigned16
  split <;> omega

/-- `decodeAudioData`'s byte-pair view undoes `createBlob`'s byte
flattening on any in-range `Int16Array` contents. -/
theorem bytesToInt16_flatMap :
    ∀ ns : List ℤ, (∀ n ∈ ns, -32768 ≤ n ∧ n < 32768) →
      bytesToInt16 (ns.flatMap int16ToBytesLE) = ns
  | [], _ => rfl
  | n :: rest, h => by
    have hn := h n (by simp)
    have ih := bytesToInt16_flatMap rest (fun m hm => h m (by simp [hm]))
    show bytesToInt16 ((n % 65536).toNat % 256 :: (n % 65536).toNat / 256 ::
      rest.flatMap int16ToBytesLE) = n :: rest
    rw [bytesToInt16, ih, toSigned16_bytes n hn.1 hn.2]

/-- Per-sample round-trip error bound: decode after encode lands within
`2/32768` of any in-range sample (the negative side is within one step
`1/32768`; the non-negative side can reach just under two steps because
the encoder scales by 32767 while the decoder divides by 32768). -/
theorem pcm_roundtrip_error (s : ℚ) (h1 : -1 ≤ s) (h2 : s ≤ 1) :
    |((floatToPCM16sample s : ℚ)) / 32768 - s| < 2 / 32768 := by
  rcases lt_or_le s 0 with hneg | hpos
  · rw [floatToPCM16_neg s h1 hneg]
    have hle : s * 32768 ≤ (⌈s * 32768⌉ : ℚ) := Int.le_ceil _
    have hlt : (⌈s * 32768⌉ : ℚ) < s * 32768 + 1 := Int.ceil_lt_add_one _
    rw [abs_sub_lt_iff]
    constructor <;> linarith
  · rw [floatToPCM16_nonneg s h2 hpos]
    have hle : (⌊s * 32767⌋ : ℚ) ≤ s * 32767 := Int.floor_le _
    have hlt : s * 32767 - 1 < (⌊s * 32767⌋ : ℚ) := Int.sub_one_lt_floor _
    rw [abs_sub_lt_iff]
    constructor <;> linarith

/-- C7 counterexample: the in-range sample `65535/65536` (an exact
`Float32` value) encodes to 32766 and decodes to `32766/32768`, an
error of `3/65536`, strictly more than one quantization step
`1/32768 = 2/65536`. -/
theorem C7_counterexample :
    (-1 : ℚ) ≤ 65535/65536 ∧ (65535/65536 : ℚ) ≤ 1 ∧
    ¬ (|((decodeAudioDataSamples (createBlobBytes [65535/65536]) 1).getD 0 []).getD 0 0
          - (65535/65536 : ℚ)| ≤ 1 / 32768) := by
  refine ⟨by norm_num, by norm_num, ?_⟩
  have hs : floatToPCM16sample (65535/65536) = 32766 := by
    rw [floatToPCM16_nonneg (65535/65536) (by norm_num) (by norm_num)]
    rw [Int.floor_eq_iff]
    norm_num
  have hbytes : createBlobBytes [65535/65536] = [254, 127] := by
    show ((([65535/65536] : List ℚ).map floatToPCM16sample).flatMap int16ToBytesLE) = [254, 127]
    rw [List.map_singleton, hs]
    rfl
  rw [hbytes]
  have hdec : (decodeAudioDataSamples [254, 127] 1).getD 0 [] = [(32766 : ℚ)/32768] := by
    have hpcm : bytesToInt16 [254, 127] = [32766] := by decide
    show ((List.range 1).map (fun channel =>
      (List.range ((bytesToInt16 [254, 127]).length / 1)).map (fun i =>
        ((bytesToInt16 [254, 127]).getD (i * 1 + channel) 0 : ℚ) / 32768))).getD 0 []
      = [(32766 : ℚ)/32768]
    rw [hpcm]
    rfl
  rw [hdec]
  show ¬ (|(32766 : ℚ)/32768 - 65535/65536| ≤ 1 / 32768)
  rw [abs_of_nonpos (by norm_num)]
  norm_num

/-- C7 amended: for every float sample array with values in `[-1, 1]`,
decoding the PCM16 encoding yields a same-length array differing from
the input by strictly less than two quantization steps (`2/32768`) at
every index; the one-step bound `1/32768` claimed in the spec holds for
negative samples but fails for non-negative ones, since encoding scales
by 32767 while decoding divides by 32768. -/
theorem C7_codec_roundtrip (x : List ℚ) (h : ∀ s ∈ x, -1 ≤ s ∧ s ≤ 1) :
    ((decodeAudioDataSamples (createBlobBytes x) 1).getD 0 []).length = x.length ∧
    ∀ i, i < x.length →
      |((decodeAudioDataSamples (createBlobBytes x) 1).getD 0 []).getD i 0 - x.getD i 0|
        < 2 / 32768 := by
  have hpcm : bytesToInt16 (createBlobBytes x) = x.map floatToPCM16sample := by
    unfold createBlobBytes
    apply bytesToInt16_flatMap
    intro n hn
    rcases List.mem_map.mp hn with ⟨s, hs, rfl⟩
    exact floatToPCM16_mem_range s (h s hs).1 (h s hs).2
  have hchan : (decodeAudioDataSamples (createBlobBytes x) 1).getD 0 []
      = (List.range ((bytesToInt16 (createBlobBytes x)).length / 1)).map
          (fun i => ((bytesToInt16 (createBlobBytes x)).getD (i * 1 + 0) 0 : ℚ) / 32768) := by
    rfl
  constructor
  · rw [hchan, List.length_map, List.length_range, hpcm, List.length_map, Nat.div_one]
  · intro i hi
    rw [hchan]
    have hlen2 : i < ((List.range ((bytesToInt16 (createBlobBytes x)).length / 1)).map
        (fun i => ((bytesToInt16 (createBlobBytes x)).getD (i * 1 + 0) 0 : ℚ) / 32768)).length := by
      rw [List.length_map, List.length_range, hpcm, List.length_map, Nat.div_one]
      exact hi
    rw [List.getD_eq_getElem _ _ hlen2, List.getElem_map, List.getElem_range]
    rw [hpcm]
    have hidx : i * 1 + 0 = i := by omega
    rw [hidx]
    have hi' : i < (x.map floatToPCM16sample).length := by
      rw [List.length_map]
      exact hi
    rw [List.getD_eq_getElem _ _ hi', List.getElem_map, List.getD_eq_getElem _ _ hi]
    exact pcm_roundtrip_error (x.get ⟨i, hi⟩)
      (h _ (List.getElem_mem hi)).1 (h _ (List.getElem_mem hi)).2

/-- Witness for C7 (amended) at a concrete two-sample array. -/
theorem C7_codec_roundtrip_witness :
    (∀ s ∈ ([1, -1/2] : List ℚ), -1 ≤ s ∧ s ≤ 1) ∧
    ((decodeAudioDataSamples (createBlobBytes [1, -1/2]) 1).getD 0 []).length = 2 := by
  refine ⟨by norm_num, ?_⟩
  exact (C7_codec_roundtrip [1, -1/2] (by norm_num)).1

/-- Witness for C4 at concrete 4096-sample chunks: an all-zero chunk and
an all-`0.01` chunk. -/
theorem C4_silence_gating_witness :
    (List.replicate 4096 (0:ℚ)).length = BUFFER_THRESHOLD ∧
    silenceGate (List.replicate 4096 (0:ℚ)) = false ∧
    silenceGate (List.replicate 4096 (1/100 : ℚ)) = true := by
  refine ⟨by rw [List.length_replicate]; rfl, ?_, ?_⟩
  · exact (C4_silence_gating _ (by rw [List.length_replicate]; rfl)).1
      (fun s hs => List.eq_of_mem_replicate hs)
  · exact (C4_silence_gating _ (by rw [List.length_replicate]; rfl)).2
      ⟨1/100, List.mem_replicate.mpr ⟨by norm_num, rfl⟩,
        by rw [abs_of_nonneg (by norm_num : (0:ℚ) ≤ 1/100)]⟩
